import Mathlib

set_option maxRecDepth 10000

/-!
# Verification of the research_toolkit resource library

Shallow embedding of the core of `research_toolkit` (identity value objects,
JSONL keyword indexer, resource store, ingest/reindex use cases), translated
from the Python sources:

* `src/research_toolkit/domain/value_objects.py`
* `src/research_toolkit/domain/entities.py`
* `src/research_toolkit/infrastructure/jsonl_indexer.py`
* `src/research_toolkit/infrastructure/filesystem_store.py`
* `src/research_toolkit/application/use_cases/ingest_resource.py`
* `src/research_toolkit/application/use_cases/reindex.py`

Machine-level details are modelled explicitly: Python `str` is `String`
(a list of unicode code points), byte strings are `List Nat` with values
below 256, 32-bit arithmetic is `Nat` reduced modulo `2 ^ 32`, and
`hashlib.sha256` is implemented in full (FIPS 180-4).  Fallible Python code
(raising `ValueError` / `KeyError` / `FileNotFoundError`) is modelled with
`Option` or `Except String`.
-/

namespace RT

/-! ## Python string helpers

`pyStrip` models `str.strip()` on the ASCII whitespace characters
(the inputs of interest contain no non-ASCII whitespace). -/

def isPySpace (c : Char) : Bool :=
  c = ' ' || c = '\t' || c = '\n' || c = '\x0d' || c = '\x0b' || c = '\x0c'

def stripCharList (p : Char → Bool) (cs : List Char) : List Char :=
  ((cs.dropWhile p).reverse.dropWhile p).reverse

/-- Model of `str.strip()` (both ends, whitespace). -/
def pyStrip (s : String) : String :=
  String.mk (stripCharList isPySpace s.data)

/-- Model of `str.strip("'\"")` (both ends, quote characters). -/
def stripQuotes (s : String) : String :=
  String.mk (stripCharList (fun c => c = '\'' || c = '"') s.data)

/-- Model of `str.startswith(p)`. -/
def pyStartsWith (s p : String) : Bool :=
  p.data.isPrefixOf s.data

/-- ASCII-range `str.lower()` on one character. -/
def pyLowerChar (c : Char) : Char :=
  if 'A' ≤ c && c ≤ 'Z' then Char.ofNat (c.toNat + 32) else c

/-- ASCII-range `str.lower()`. -/
def pyLower (s : String) : String :=
  String.mk (s.data.map pyLowerChar)

/-- Model of `s.split(":", 1)[1]`: everything after the first colon (callers only use
this when a colon is guaranteed to be present). -/
def afterFirstColon : List Char → List Char
  | [] => []
  | c :: r => if c = ':' then r else afterFirstColon r

/-- Model of `s.split(sep)` for a one-character separator, Python semantics
(the result always has one more element than the number of separators). -/
def splitOnChar (sep : Char) : List Char → List String
  | [] => [""]
  | c :: r =>
    let rest := splitOnChar sep r
    if c = sep then
      "" :: rest
    else
      match rest with
      | [] => [String.mk [c]]
      | s :: ss => String.mk (c :: s.data) :: ss

/-- Model of `content.split("\n")`. -/
def splitLines (s : String) : List String := splitOnChar '\n' s.data

/-- Model of `os.path.basename` (POSIX): the part after the last `/`. -/
def pyBasename (s : String) : String :=
  (splitOnChar '/' s.data).getLastD ""

end RT

namespace RT

/-! ## Tokenizer (`JsonlIndexer._tokenize`)

`re.findall(r"[a-z0-9]+", text.lower())` = maximal runs of `[a-z0-9]`
in the lowercased text; then stopwords and one-character tokens are dropped. -/

def isTokChar (c : Char) : Bool :=
  ('a' ≤ c && c ≤ 'z') || ('0' ≤ c && c ≤ '9')

/-- Maximal runs of token characters (`acc` is the current run, reversed). -/
def tokenRunsAux : List Char → List Char → List String
  | [], acc => if acc.isEmpty then [] else [String.mk acc.reverse]
  | c :: r, acc =>
    if isTokChar c then tokenRunsAux r (c :: acc)
    else if acc.isEmpty then tokenRunsAux r []
    else String.mk acc.reverse :: tokenRunsAux r []

/-- Model of `re.findall(r"[a-z0-9]+", text.lower())`. -/
def findallTokens (s : String) : List String :=
  tokenRunsAux (s.data.map pyLowerChar) []

/-- The fixed stopword set of `JsonlIndexer._tokenize`. -/
def stopwords : List String :=
  ["the", "a", "an", "is", "are", "was", "were", "in", "on", "at",
   "to", "for", "of", "and", "or", "it"]

/-- Model of `JsonlIndexer._tokenize`. -/
def tokenize (text : String) : List String :=
  (findallTokens text).filter (fun w => !stopwords.contains w && w.length > 1)

end RT

namespace RT

/-! ## SHA-256 (`hashlib.sha256`), FIPS 180-4, over byte lists -/

def w32 (n : Nat) : Nat := n % 4294967296

def rotr32 (n x : Nat) : Nat := w32 ((x >>> n) ||| (x <<< (32 - n)))

def shaCh (x y z : Nat) : Nat := (x &&& y) ^^^ ((x ^^^ 4294967295) &&& z)

def shaMaj (x y z : Nat) : Nat := (x &&& y) ^^^ (x &&& z) ^^^ (y &&& z)

def bigSigma0 (x : Nat) : Nat := rotr32 2 x ^^^ rotr32 13 x ^^^ rotr32 22 x

def bigSigma1 (x : Nat) : Nat := rotr32 6 x ^^^ rotr32 11 x ^^^ rotr32 25 x

def smallSigma0 (x : Nat) : Nat := rotr32 7 x ^^^ rotr32 18 x ^^^ (x >>> 3)

def smallSigma1 (x : Nat) : Nat := rotr32 17 x ^^^ rotr32 19 x ^^^ (x >>> 10)

/-- Round constants of FIPS 180-4 section 4.2.2 (fractional parts of the
cube roots of the first 64 primes), written in decimal. -/
def shaK : List Nat :=
  [1116352408, 1899447441, 3049323471, 3921009573,
   961987163, 1508970993, 2453635748, 2870763221,
   3624381080, 310598401, 607225278, 1426881987,
   1925078388, 2162078206, 2614888103, 3248222580,
   3835390401, 4022224774, 264347078, 604807628,
   770255983, 1249150122, 1555081692, 1996064986,
   2554220882, 2821834349, 2952996808, 3210313671,
   3336571891, 3584528711, 113926993, 338241895,
   666307205, 773529912, 1294757372, 1396182291,
   1695183700, 1986661051, 2177026350, 2456956037,
   2730485921, 2820302411, 3259730800, 3345764771,
   3516065817, 3600352804, 4094571909, 275423344,
   430227734, 506948616, 659060556, 883997877,
   958139571, 1322822218, 1537002063, 1747873779,
   1955562222, 2024104815, 2227730452, 2361852424,
   2428436474, 2756734187, 3204031479, 3329325298]

/-- The eight 32-bit working variables of the compression function. -/
structure Hash8 where
  a : Nat
  b : Nat
  c : Nat
  d : Nat
  e : Nat
  f : Nat
  g : Nat
  h : Nat

def shaInit : Hash8 :=
  ⟨1779033703, 3144134277, 1013904242, 2773480762,
   1359893119, 2600822924, 528734635, 1541459225⟩

/-- Message schedule: 16 block words extended to 64. -/
def msgSchedule (block : List Nat) : List Nat :=
  (List.range 48).foldl
    (fun ws _ =>
      let n := ws.length
      ws ++ [w32 (smallSigma1 (ws.getD (n - 2) 0) + ws.getD (n - 7) 0 +
                  smallSigma0 (ws.getD (n - 15) 0) + ws.getD (n - 16) 0)])
    block

def shaRound (st : Hash8) (wk : Nat × Nat) : Hash8 :=
  let t1 := w32 (st.h + bigSigma1 st.e + shaCh st.e st.f st.g + wk.2 + wk.1)
  let t2 := w32 (bigSigma0 st.a + shaMaj st.a st.b st.c)
  ⟨w32 (t1 + t2), st.a, st.b, st.c, w32 (st.d + t1), st.e, st.f, st.g⟩

def shaCompress (st : Hash8) (block : List Nat) : Hash8 :=
  let ws := msgSchedule block
  let r := (ws.zip shaK).foldl shaRound st
  ⟨w32 (st.a + r.a), w32 (st.b + r.b), w32 (st.c + r.c), w32 (st.d + r.d),
   w32 (st.e + r.e), w32 (st.f + r.f), w32 (st.g + r.g), w32 (st.h + r.h)⟩

/-- SHA-256 padding of a byte message. -/
def shaPad (m : List Nat) : List Nat :=
  let padLen := (64 - ((m.length + 9) % 64)) % 64
  m ++ [0x80] ++ List.replicate padLen 0 ++
    (List.range 8).map (fun i => ((8 * m.length) >>> (56 - 8 * i)) % 256)

/-- Split the padded message into 64-byte blocks of 16 big-endian words. -/
def shaBlocks (padded : List Nat) : List (List Nat) :=
  (List.range (padded.length / 64)).map fun i =>
    let blk := (padded.drop (64 * i)).take 64
    (List.range 16).map fun j =>
      blk.getD (4 * j) 0 * 16777216 + blk.getD (4 * j + 1) 0 * 65536 +
      blk.getD (4 * j + 2) 0 * 256 + blk.getD (4 * j + 3) 0

def shaDigestWords (m : List Nat) : Hash8 :=
  (shaBlocks (shaPad m)).foldl shaCompress shaInit

/-- Lowercase hex digit for a nibble value. -/
def hexDigit (n : Nat) : Char :=
  if n < 10 then Char.ofNat (48 + n) else Char.ofNat (87 + n)

/-- A 32-bit word as 8 lowercase hex characters (big-endian nibbles). -/
def wordHexChars (x : Nat) : List Char :=
  (List.range 8).map (fun i => hexDigit ((x >>> (28 - 4 * i)) % 16))

/-- Model of `hashlib.sha256(bytes).hexdigest()` as a character list. -/
def sha256HexChars (m : List Nat) : List Char :=
  let d := shaDigestWords m
  ([d.a, d.b, d.c, d.d, d.e, d.f, d.g, d.h].map wordHexChars).flatten

/-! UTF-8 encoding (`str.encode()`), bytes as `Nat` values below 256. -/

def utf8EncodeCharNat (c : Char) : List Nat :=
  let v := c.toNat
  if v < 0x80 then [v]
  else if v < 0x800 then
    [0xc0 ||| (v >>> 6), 0x80 ||| (v &&& 0x3f)]
  else if v < 0x10000 then
    [0xe0 ||| (v >>> 12), 0x80 ||| ((v >>> 6) &&& 0x3f), 0x80 ||| (v &&& 0x3f)]
  else
    [0xf0 ||| (v >>> 18), 0x80 ||| ((v >>> 12) &&& 0x3f),
     0x80 ||| ((v >>> 6) &&& 0x3f), 0x80 ||| (v &&& 0x3f)]

def utf8Bytes (s : String) : List Nat :=
  (s.data.map utf8EncodeCharNat).flatten

/-- Model of `hashlib.sha256(s.encode()).hexdigest()` as a character list. -/
def sha256HexOfString (s : String) : List Char :=
  sha256HexChars (utf8Bytes s)

end RT

namespace RT

/-! ## `datetime` model (for the `Timestamp` value object)

Python `datetime.datetime` restricted to whole-minute UTC offsets (which is
all the toolkit produces: `timezone.utc` from `Clock.now`, or offsets parsed
back from its own ISO output).  `tzOffsetMinutes = none` models a naive
datetime. -/

structure PyDateTime where
  year : Nat
  month : Nat
  day : Nat
  hour : Nat
  minute : Nat
  second : Nat
  microsecond : Nat
  tzOffsetMinutes : Option Int
  deriving DecidableEq, Repr

def isLeapYear (y : Nat) : Bool :=
  (y % 4 = 0 && y % 100 ≠ 0) || y % 400 = 0

def daysInMonth (y m : Nat) : Nat :=
  if m = 2 then (if isLeapYear y then 29 else 28)
  else if m = 4 || m = 6 || m = 9 || m = 11 then 30
  else 31

/-- The range invariants `datetime.datetime` itself enforces. -/
def wfPyDateTime (t : PyDateTime) : Bool :=
  1 ≤ t.year && t.year ≤ 9999 &&
  1 ≤ t.month && t.month ≤ 12 &&
  1 ≤ t.day && t.day ≤ daysInMonth t.year t.month &&
  t.hour ≤ 23 && t.minute ≤ 59 && t.second ≤ 59 && t.microsecond ≤ 999999 &&
  (match t.tzOffsetMinutes with
   | none => true
   | some off => -1439 ≤ off && off ≤ 1439)

/-! Zero-padded decimal printing and digit parsing. -/

def digitChar (n : Nat) : Char := Char.ofNat (48 + n)

def isDigitChar (c : Char) : Bool := '0' ≤ c && c ≤ '9'

/-- Decimal printing of `n`, zero-padded to width `w` (for `n < 10 ^ w`). -/
def padDigits : Nat → Nat → List Char
  | 0, _ => []
  | w + 1, n => padDigits w (n / 10) ++ [digitChar (n % 10)]

def digitsVal (l : List Char) : Nat :=
  l.foldl (fun a c => a * 10 + (c.toNat - 48)) 0

/-- Consume exactly `w` decimal digits. -/
def expectDigits (w : Nat) (cs : List Char) : Option (Nat × List Char) :=
  let pre := cs.take w
  if pre.length = w && pre.all isDigitChar then some (digitsVal pre, cs.drop w)
  else none

/-- Consume one expected character. -/
def expectChar (c : Char) : List Char → Option (List Char)
  | [] => none
  | x :: r => if x = c then some r else none

/-- Model of `datetime.isoformat()` as a character list:
`YYYY-MM-DDTHH:MM:SS[.ffffff][±HH:MM]`. -/
def isoChars (t : PyDateTime) : List Char :=
  padDigits 4 t.year ++ '-' :: padDigits 2 t.month ++ '-' :: padDigits 2 t.day ++
  'T' :: padDigits 2 t.hour ++ ':' :: padDigits 2 t.minute ++
  ':' :: padDigits 2 t.second ++
  (if t.microsecond = 0 then [] else '.' :: padDigits 6 t.microsecond) ++
  (match t.tzOffsetMinutes with
   | none => []
   | some off =>
     (if off < 0 then '-' else '+') ::
       padDigits 2 (off.natAbs / 60) ++ ':' :: padDigits 2 (off.natAbs % 60))

/-- Fraction part: `.ffffff` with 1–6 digits, scaled to microseconds. -/
def parseFraction (cs : List Char) : Option (Nat × List Char) :=
  match cs with
  | [] => some (0, cs)
  | c :: r =>
    if c = '.' then
      let frac := r.takeWhile isDigitChar
      if 1 ≤ frac.length && frac.length ≤ 6 then
        some (digitsVal frac * 10 ^ (6 - frac.length), r.drop frac.length)
      else none
    else some (0, cs)

/-- Timezone suffix: empty (naive), `Z`, or `±HH:MM`. -/
def parseTz (cs : List Char) : Option (Option Int) :=
  match cs with
  | [] => some none
  | sign :: r =>
    if (sign = 'Z' || sign = 'z') && r.isEmpty then some (some 0)
    else if sign = '+' || sign = '-' then do
      let (hh, r1) ← expectDigits 2 r
      let r2 ← expectChar ':' r1
      let (mi, r3) ← expectDigits 2 r2
      if r3.isEmpty && hh * 60 + mi ≤ 1439 then
        some (some (if sign = '-' then -((hh * 60 + mi : Nat) : Int)
                    else ((hh * 60 + mi : Nat) : Int)))
      else none
    else none

/-- Model of `datetime.fromisoformat` on the grammar the toolkit itself emits
(`T` or space separator, optional seconds, 1–6 fraction digits, optional
`Z`/`±HH:MM` offset), including the constructor range checks. -/
def parseIsoChars (cs : List Char) : Option PyDateTime := do
  let (y, r1) ← expectDigits 4 cs
  let r2 ← expectChar '-' r1
  let (mo, r3) ← expectDigits 2 r2
  let r4 ← expectChar '-' r3
  let (d, r5) ← expectDigits 2 r4
  let t ←
    match r5 with
    | [] => some (PyDateTime.mk y mo d 0 0 0 0 none)
    | sep :: r6 =>
      if sep = 'T' || sep = ' ' then do
        let (hh, r7) ← expectDigits 2 r6
        let r8 ← expectChar ':' r7
        let (mi, r9) ← expectDigits 2 r8
        match r9 with
        | [] => do
          let tz ← parseTz []
          some (PyDateTime.mk y mo d hh mi 0 0 tz)
        | c :: r10 =>
          if c = ':' then do
            let (ss, r11) ← expectDigits 2 r10
            let (us, r12) ← parseFraction r11
            let tz ← parseTz r12
            some (PyDateTime.mk y mo d hh mi ss us tz)
          else do
            let tz ← parseTz (c :: r10)
            some (PyDateTime.mk y mo d hh mi 0 0 tz)
      else none
  if wfPyDateTime t then some t else none

end RT

namespace RT

/-! ## Value objects (`domain/value_objects.py`) -/

structure ResourceId where
  value : String
  deriving DecidableEq, Repr

def isHexLowerChar (c : Char) : Bool :=
  ('a' ≤ c && c ≤ 'f') || ('0' ≤ c && c ≤ '9')

/-- Model of `re.fullmatch(r"[a-f0-9]{8,16}", value)` in `ResourceId.__post_init__`. -/
def validResourceId (s : String) : Bool :=
  8 ≤ s.length && s.length ≤ 16 && s.data.all isHexLowerChar

/-- Model of `ResourceId(value)`: the validating constructor (raises on mismatch). -/
def mkResourceId (s : String) : Option ResourceId :=
  if validResourceId s then some ⟨s⟩ else none

/-- Model of `ResourceId.from_url`: `sha256(url.encode()).hexdigest()[:12]`. -/
def ResourceId.from_url (url : String) : ResourceId :=
  ⟨String.mk ((sha256HexOfString url).take 12)⟩

/-- Model of `ResourceId.from_content`: `sha256(content.encode()).hexdigest()[:12]`. -/
def ResourceId.from_content (content : String) : ResourceId :=
  ⟨String.mk ((sha256HexOfString content).take 12)⟩

structure Url where
  value : String
  deriving DecidableEq, Repr

/-- Model of `Url.__post_init__`: must start with `http://`, `https://` or `file://`. -/
def validUrl (s : String) : Bool :=
  pyStartsWith s "http://" || pyStartsWith s "https://" || pyStartsWith s "file://"

/-- Model of `Url(value)`: the validating constructor (raises on mismatch). -/
def mkUrl (s : String) : Option Url :=
  if validUrl s then some ⟨s⟩ else none

structure Timestamp where
  dt : PyDateTime
  deriving DecidableEq, Repr

/-- Model of `Timestamp.iso`: `self.dt.isoformat()`. -/
def Timestamp.iso (t : Timestamp) : String := String.mk (isoChars t.dt)

/-- Model of `Timestamp.from_iso`: `datetime.fromisoformat(iso)` (raises on failure). -/
def Timestamp.from_iso (s : String) : Option Timestamp :=
  (parseIsoChars s.data).map Timestamp.mk

structure ContentHash where
  value : String
  deriving DecidableEq, Repr

/-- Model of `ContentHash.of`: full (64 hex char) SHA-256 digest of the text. -/
def ContentHash.of (text : String) : ContentHash :=
  ⟨String.mk (sha256HexOfString text)⟩

end RT

namespace RT

/-! ## `Resource` entity (`domain/entities.py`) -/

structure Resource where
  id : ResourceId
  title : String
  url : Url
  captured_at : Timestamp
  content_hash : ContentHash
  tags : List String
  snippet_count : Int
  deriving DecidableEq, Repr

/-- The dictionary shape `Resource.to_dict` emits (all seven keys present). -/
structure RDict where
  id : String
  title : String
  url : String
  captured_at : String
  content_hash : String
  tags : List String
  snippet_count : Int
  deriving DecidableEq, Repr

/-- Model of `Resource.to_dict`. -/
def Resource.to_dict (r : Resource) : RDict :=
  ⟨r.id.value, r.title, r.url.value, r.captured_at.iso,
   r.content_hash.value, r.tags, r.snippet_count⟩

/-- Model of `Resource.from_dict` (value-object constructors and `Timestamp.from_iso`
raise `ValueError` on bad input, modelled as `none`). -/
def Resource.from_dict (d : RDict) : Option Resource := do
  let rid ← mkResourceId d.id
  let url ← mkUrl d.url
  let ts ← Timestamp.from_iso d.captured_at
  some ⟨rid, d.title, url, ts, ⟨d.content_hash⟩, d.tags, d.snippet_count⟩

end RT

namespace RT

/-! ## Keyword index (`infrastructure/jsonl_indexer.py`)

Python dicts / `Counter`s are insertion-ordered maps with unique keys; they
are modelled as association lists where updates rewrite in place and new
keys are appended at the end, exactly mirroring dict insertion order. -/

/-- Ordered-dict lookup (`d[k]`, absent ↦ `none`). -/
def alistFind (l : List (String × α)) (k : String) : Option α :=
  match l with
  | [] => none
  | (k', v) :: r => if k' = k then some v else alistFind r k

/-- Model of `Counter.__getitem__`: missing keys read as 0. -/
def counterGet (l : List (String × Nat)) (k : String) : Nat :=
  (alistFind l k).getD 0

/-- Ordered-dict assignment `d[k] = v`. -/
def alistSet (l : List (String × α)) (k : String) (v : α) : List (String × α) :=
  match l with
  | [] => [(k, v)]
  | (k', v') :: r => if k' = k then (k', v) :: r else (k', v') :: alistSet r k v

/-- Model of `counter[k] += 1`. -/
def counterBump (l : List (String × Nat)) (k : String) : List (String × Nat) :=
  match l with
  | [] => [(k, 1)]
  | (k', v) :: r => if k' = k then (k', v + 1) :: r else (k', v) :: counterBump r k

/-- Model of `counter[k] += n` (`n = 0` still creates the key, as in Python). -/
def counterBumpBy (l : List (String × Nat)) (k : String) (n : Nat) :
    List (String × Nat) :=
  match l with
  | [] => [(k, n)]
  | (k', v) :: r => if k' = k then (k', v + n) :: r else (k', v) :: counterBumpBy r k n

/-- Model of `if term not in self._index: self._index[term] = Counter()` followed by
`self._index[term][rid] += 1`. -/
def indexBump (ix : List (String × List (String × Nat))) (term rid : String) :
    List (String × List (String × Nat)) :=
  match ix with
  | [] => [(term, [(rid, 1)])]
  | (t, c) :: r =>
    if t = term then (t, counterBump c rid) :: r else (t, c) :: indexBump r term rid

/-- In-memory state of `JsonlIndexer`: `_index` and `_resources`. -/
structure IndexState where
  index : List (String × List (String × Nat))
  resources : List (String × Resource)
  deriving DecidableEq, Repr

def IndexState.empty : IndexState := ⟨[], []⟩

/-- Occurrence count of `term` for `rid` (`self._index[term][rid]`, 0 when
either key is absent). -/
def IndexState.countOf (st : IndexState) (term rid : String) : Nat :=
  counterGet ((alistFind st.index term).getD []) rid

/-- Model of `JsonlIndexer.index_resource`. -/
def index_resource (st : IndexState) (resource : Resource) (content : String) :
    IndexState :=
  let rid := resource.id.value
  let st := { st with resources := alistSet st.resources rid resource }
  let terms := tokenize (resource.title ++ " " ++ content)
  terms.foldl (fun st term => { st with index := indexBump st.index term rid }) st

/-- One term's contribution in `search_local`:
`if term in self._index: for rid, count in self._index[term].items():
scores[rid] += count`. -/
def scoresStep (st : IndexState) (scores : List (String × Nat)) (term : String) :
    List (String × Nat) :=
  match alistFind st.index term with
  | none => scores
  | some c => c.foldl (fun sc p => counterBumpBy sc p.1 p.2) scores

/-- The `scores` counter built by `search_local` before ranking. -/
def scoresFor (st : IndexState) (query : String) : List (String × Nat) :=
  (tokenize query).foldl (scoresStep st) []

/-- Stable descending insert: a new element goes after all elements with an
equal or larger count (preserving original order among equal counts). -/
def insertDesc (x : String × Nat) : List (String × Nat) → List (String × Nat)
  | [] => [x]
  | y :: r => if x.2 ≤ y.2 then y :: insertDesc x r else x :: y :: r

/-- Stable sort by count descending — extensionally the unique stable
descending sort, hence equal to CPython's `sorted(..., key=count,
reverse=True)` used by `Counter.most_common`. -/
def sortDesc (scores : List (String × Nat)) : List (String × Nat) :=
  scores.foldl (fun acc x => insertDesc x acc) []

/-- Model of `Counter.most_common(n)`: stable sort by count descending, first `n`. -/
def mostCommon (scores : List (String × Nat)) (n : Nat) : List (String × Nat) :=
  (sortDesc scores).take n

/-- Model of `JsonlIndexer.search_local`. -/
def search_local (st : IndexState) (query : String) (top_k : Nat) :
    List ResourceId :=
  (mostCommon (scoresFor st query) top_k).map (fun p => ⟨p.1⟩)

/-- Model of `JsonlIndexer.list_all`. -/
def list_all (st : IndexState) : List Resource := st.resources.map Prod.snd

/-- Ordered-dict deletion `d.pop(k, None)`. -/
def alistRemove (l : List (String × α)) (k : String) : List (String × α) :=
  l.filter (fun p => p.1 ≠ k)

/-- Model of `JsonlIndexer.remove`. -/
def indexRemove (st : IndexState) (resource_id : ResourceId) : IndexState :=
  let rid := resource_id.value
  ⟨st.index.map (fun p => (p.1, alistRemove p.2 rid)),
   alistRemove st.resources rid⟩

end RT

namespace RT

/-! ## Index construction (`JsonlIndexer._load`)

The ledger is a list of text lines.  `json.loads` + `Resource.from_dict`
on a stripped line has three outcomes in the real code: a resource; an
exception in the `except (json.JSONDecodeError, KeyError, ValueError)`
tuple (bad JSON, missing key, invalid value of a string-typed field),
which the loop catches and skips; or an exception outside that tuple —
e.g. `TypeError` from `data["id"]` when the line is valid JSON but not an
object (`42`), or from `re.fullmatch` on a non-string id (`{"id": 42}`) —
which propagates out of `_load` and aborts index construction.

`loadStep`/`loadLedger` below model the loop with a total
`parse : String → Option Resource`, i.e. they describe runs in which no
line takes the uncaught path (`none` is a caught-and-skipped line); this
is the model used for the duplicate-id claim, whose lines parse by
hypothesis.  `loadStepE`/`loadLedgerE` further down model all three
outcomes, including the abort.  `contentOf` models reading
`resources/<id>/content.md` (`none` when the file is missing or
unreadable, in which case the code indexes with empty content). -/

/-- State during `_load`: `seen_ids`, `_resources`, `_index`. -/
structure LoadState where
  seen : List String
  resources : List (String × Resource)
  index : List (String × List (String × Nat))
  deriving DecidableEq, Repr

def LoadState.init : LoadState := ⟨[], [], []⟩

/-- One iteration of the `for line in f` loop of `_load`. -/
def loadStep (parse : String → Option Resource) (contentOf : String → Option String)
    (st : LoadState) (line : String) : LoadState :=
  let l := pyStrip line
  if l = "" then st
  else
    match parse l with
    | none => st
    | some resource =>
      let rid := resource.id.value
      if st.seen.contains rid then st
      else
        let content := ((contentOf rid).getD "").take 10000
        let terms := tokenize (resource.title ++ " " ++ content)
        { seen := st.seen ++ [rid],
          resources := alistSet st.resources rid resource,
          index := terms.foldl (fun ix term => indexBump ix term rid) st.index }

/-- Model of `JsonlIndexer._load` over the lines of `library.jsonl`. -/
def loadLedger (parse : String → Option Resource) (contentOf : String → Option String)
    (lines : List String) : LoadState :=
  lines.foldl (loadStep parse contentOf) LoadState.init

/-- Outcome of `json.loads(line)` + `Resource.from_dict(data)`: a resource,
an exception the `except (json.JSONDecodeError, KeyError, ValueError)`
clause catches, or an exception outside that tuple (e.g. `TypeError`),
which the clause does not catch. -/
inductive ParseOutcome where
  | ok (r : Resource)
  | caught
  | uncaught
  deriving DecidableEq, Repr

/-- One iteration of the `for line in f` loop of `_load`, abort-aware:
`Except.error ()` is an uncaught exception propagating out of `_load`
(and out of `JsonlIndexer.__init__`). -/
def loadStepE (parse : String → ParseOutcome) (contentOf : String → Option String)
    (st : LoadState) (line : String) : Except Unit LoadState :=
  let l := pyStrip line
  if l = "" then .ok st
  else
    match parse l with
    | .caught => .ok st
    | .uncaught => .error ()
    | .ok resource =>
      let rid := resource.id.value
      if st.seen.contains rid then .ok st
      else
        let content := ((contentOf rid).getD "").take 10000
        let terms := tokenize (resource.title ++ " " ++ content)
        .ok { seen := st.seen ++ [rid],
              resources := alistSet st.resources rid resource,
              index := terms.foldl (fun ix term => indexBump ix term rid) st.index }

/-- Threading of the abort through the loop: after an uncaught exception
no further line is processed. -/
def loadAcc (parse : String → ParseOutcome) (contentOf : String → Option String)
    (acc : Except Unit LoadState) (line : String) : Except Unit LoadState :=
  acc.bind (fun st => loadStepE parse contentOf st line)

/-- Model of `JsonlIndexer._load`, abort-aware: once a line raises an
uncaught exception, no further line is processed and construction fails. -/
def loadLedgerE (parse : String → ParseOutcome) (contentOf : String → Option String)
    (lines : List String) : Except Unit LoadState :=
  lines.foldl (loadAcc parse contentOf) (.ok LoadState.init)

end RT

namespace RT

/-! ## Title extraction heuristic

`IngestResource._extract_title` and `Reindex._extract_title` are the same
code (the Python source duplicates the function verbatim; both are embedded
by `extract_title`).  Every `return` except the final `return fallback` is
independent of the fallback, so the function is split as a fallback-free
scan (`titleScan`) followed by `getD fallback`. -/

/-- First loop of the frontmatter branch: scan `lines[1:]` up to the closing
delimiter for a non-empty `title:` value. -/
def scanFmTitle (delim : String) : List String → Option String
  | [] => none
  | l :: ls =>
    let stripped := pyStrip l
    if stripped = delim then none
    else if pyStartsWith (pyLower stripped) "title:" then
      let val := stripQuotes (pyStrip (String.mk (afterFirstColon stripped.data)))
      if val ≠ "" then some val else scanFmTitle delim ls
    else scanFmTitle delim ls

/-- Second loop of the frontmatter branch: the lines after the first closing
delimiter in `lines[1:]`; if no closing delimiter exists, `body_start`
stays 0 and the whole document is scanned. -/
def afterClosingDelim (delim : String) : List String → Option (List String)
  | [] => none
  | l :: ls => if pyStrip l = delim then some ls else afterClosingDelim delim ls

/-- Third loop of the frontmatter branch: first `# ` heading, else first
non-empty line under 200 characters that is not itself a `---`/`+++` line. -/
def scanBody : List String → Option String
  | [] => none
  | l :: ls =>
    let stripped := pyStrip l
    if pyStartsWith stripped "# " then some (pyStrip (String.mk (stripped.data.drop 2)))
    else if stripped ≠ "" && !pyStartsWith stripped "---" &&
            !pyStartsWith stripped "+++" && stripped.length < 200 then
      some stripped
    else scanBody ls

/-- Final loop (reached when the frontmatter loops return nothing, or when
there is no frontmatter): first `# ` heading or first non-empty line under
200 characters, whichever comes first. -/
def scanPlain : List String → Option String
  | [] => none
  | l :: ls =>
    let stripped := pyStrip l
    if pyStartsWith stripped "# " then some (pyStrip (String.mk (stripped.data.drop 2)))
    else if stripped ≠ "" && stripped.length < 200 then some stripped
    else scanPlain ls

/-- All fallback-independent returns of `_extract_title`. -/
def titleScan (content : String) : Option String :=
  let lines := splitLines content
  let first := pyStrip (lines.headD "")
  if first = "---" || first = "+++" then
    match scanFmTitle first lines.tail with
    | some t => some t
    | none =>
      match scanBody ((afterClosingDelim first lines.tail).getD lines) with
      | some t => some t
      | none => scanPlain lines
  else scanPlain lines

/-- Model of `_extract_title(content, fallback)`. -/
def extract_title (content fallback : String) : String :=
  (titleScan content).getD fallback

end RT

namespace RT

/-! ## Resource store (`infrastructure/filesystem_store.py`)

The per-resource directory tree and ledger file, as data.  Directory
creation (`os.makedirs`) has no observable effect in the model. -/

structure StoreState where
  /-- Model of `resources/<id>/meta.json`, keyed by resource id. -/
  metas : List (String × Resource)
  /-- Model of `resources/<id>/content.md`. -/
  contents : List (String × String)
  /-- ids that have a `resources/<id>/snippets.json` file. -/
  snippetFiles : List String
  /-- Model of `resources/<id>/raw/snapshot.html`. -/
  raws : List (String × String)
  /-- the lines of `library.jsonl`, in order. -/
  ledger : List Resource
  deriving DecidableEq, Repr

def StoreState.empty : StoreState := ⟨[], [], [], [], []⟩

/-- Model of `FilesystemStore.resource_exists`: presence of `meta.json`. -/
def resource_exists (st : StoreState) (rid : ResourceId) : Bool :=
  (alistFind st.metas rid.value).isSome

/-- Model of `FilesystemStore.load_resource`. -/
def load_resource (st : StoreState) (rid : ResourceId) : Option Resource :=
  alistFind st.metas rid.value

/-- Model of `FilesystemStore.save_resource` (the raw snapshot is written only when
`raw_html` is truthy, i.e. present and non-empty). -/
def save_resource (st : StoreState) (r : Resource) (content_md : String)
    (raw_html : Option String) : StoreState :=
  let rid := r.id.value
  { metas := alistSet st.metas rid r,
    contents := alistSet st.contents rid content_md,
    snippetFiles :=
      if st.snippetFiles.contains rid then st.snippetFiles
      else st.snippetFiles ++ [rid],
    raws :=
      match raw_html with
      | some h => if h = "" then st.raws else alistSet st.raws rid h
      | none => st.raws,
    ledger := st.ledger ++ [r] }

end RT

namespace RT

/-! ## Ingest use case (`application/use_cases/ingest_resource.py`)

Collaborators are functions: `capture` is the snapshotter
(`capture(url) -> (text, raw_html)`), `files` the local filesystem
(path ↦ file content, `none` when `os.path.exists` is false; paths are
taken as already absolute so `os.path.abspath` is the identity), `now`
the clock.  `execute` returns the store and index as of the moment an
exception propagates, paired with the outcome. -/

structure IngestResponse where
  resource : Resource
  already_existed : Bool
  deriving DecidableEq, Repr

/-- The common tail of `IngestResource.execute` after `rid`, `content_md`,
`raw_html`, `url` and `title` have been computed. -/
def ingestFinish (now : PyDateTime) (store : StoreState) (ix : IndexState)
    (rid : ResourceId) (title : String) (url : Url) (content_md : String)
    (raw_html : Option String) :
    StoreState × IndexState × Except String IngestResponse :=
  if pyStrip content_md = "" then
    (store, ix, .error "No content could be extracted from the source.")
  else
    let resource : Resource :=
      ⟨rid, title, url, ⟨now⟩, ContentHash.of content_md, [], 0⟩
    let store' := save_resource store resource content_md raw_html
    let ix' := index_resource ix resource content_md
    (store', ix', .ok ⟨resource, false⟩)

/-- Model of `IngestResource.execute`. -/
def ingestExecute (capture : String → Option String × Option String)
    (files : String → Option String) (now : PyDateTime)
    (store : StoreState) (ix : IndexState) (source : String) :
    StoreState × IndexState × Except String IngestResponse :=
  let is_url := pyStartsWith source "http://" || pyStartsWith source "https://"
  if is_url then
    let rid := ResourceId.from_url source
    let fetch : StoreState × IndexState × Except String IngestResponse :=
      let (text, raw_html) := capture source
      let content_md := text.getD ""
      let url : Url := ⟨source⟩
      let title := extract_title content_md source
      ingestFinish now store ix rid title url content_md raw_html
    if resource_exists store rid then
      match load_resource store rid with
      | some existing => (store, ix, .ok ⟨existing, true⟩)
      | none => fetch
    else fetch
  else
    match files source with
    | none => (store, ix, .error ("File not found: " ++ source))
    | some content_md =>
      let rid := ResourceId.from_content content_md
      let localSave : StoreState × IndexState × Except String IngestResponse :=
        let url : Url := ⟨"file://" ++ source⟩
        let title := pyBasename source
        ingestFinish now store ix rid title url content_md none
      if resource_exists store rid then
        match load_resource store rid with
        | some existing => (store, ix, .ok ⟨existing, true⟩)
        | none => localSave
      else localSave

end RT

namespace RT

/-! ## Reindex use case (`application/use_cases/reindex.py`)

One directory under `<base>/resources` is an `RDirEntry`: `meta = none`
models a missing `meta.json` (the directory is skipped without counting),
`meta = some none` a `meta.json` whose `json.load`/`Resource.from_dict`
raises (counted as an error), `meta = some (some r)` a parseable one.
The loop body is per-entry (the result counters are the only cross-entry
state), so `execute` is presented entry-wise and aggregated. -/

structure RDirEntry where
  name : String
  meta : Option (Option Resource)
  content : Option String
  deriving DecidableEq, Repr

structure ReindexResult where
  total : Nat
  titles_fixed : Nat
  errors : List String
  deriving DecidableEq, Repr

/-- One iteration of the `for rid_dir in sorted(os.listdir(...))` loop:
(total increment, titles_fixed increment, errors, entry afterwards,
contribution to `resources_with_content`).  Note the title rewrite drops
`snippet_count` (the `Resource(...)` call omits it, so it resets to 0). -/
def reindexEntry (e : RDirEntry) :
    Nat × Nat × List String × RDirEntry × Option (Resource × String) :=
  match e.meta with
  | none => (0, 0, [], e, none)
  | some none => (1, 0, [e.name ++ ": error"], e, none)
  | some (some r) =>
    let content := e.content.getD ""
    let new_title := extract_title content r.title
    if new_title ≠ r.title then
      let r' : Resource :=
        ⟨r.id, new_title, r.url, r.captured_at, r.content_hash, r.tags, 0⟩
      (1, 1, [], { e with meta := some (some r') }, some (r', content))
    else
      (1, 0, [], e, some (r, content))

/-- Model of `Reindex.execute`: aggregate counters, the rewritten store entries
(`entries` is the directory listing in its `sorted(os.listdir(...))` order),
the rebuilt `library.jsonl` content, and the rebuilt in-memory index
(indexed from a 10000 character content prefix). -/
def reindexExecute (entries : List RDirEntry) :
    ReindexResult × List RDirEntry × List Resource × IndexState :=
  let steps := entries.map reindexEntry
  let collected := steps.filterMap (fun s => s.2.2.2.2)
  (⟨(steps.map (fun s => s.1)).sum,
    (steps.map (fun s => s.2.1)).sum,
    (steps.map (fun s => s.2.2.1)).flatten⟩,
   steps.map (fun s => s.2.2.2.1),
   collected.map (fun p => p.1),
   collected.foldl (fun st p => index_resource st p.1 (p.2.take 10000))
     IndexState.empty)

end RT

namespace RT

/-! ## Lemmas: hex digest shape -/

theorem isHexLower_hexDigit {n : Nat} (h : n < 16) :
    isHexLowerChar (hexDigit n) = true := by
  interval_cases n <;> decide

theorem length_wordHexChars (x : Nat) : (wordHexChars x).length = 8 := by
  simp [wordHexChars]

theorem all_hex_wordHexChars (x : Nat) :
    ∀ c ∈ wordHexChars x, isHexLowerChar c = true := by
  intro c hc
  simp only [wordHexChars, List.mem_map] at hc
  obtain ⟨i, _, rfl⟩ := hc
  exact isHexLower_hexDigit (Nat.mod_lt _ (by norm_num))

theorem length_sha256HexChars (m : List Nat) : (sha256HexChars m).length = 64 := by
  simp [sha256HexChars, length_wordHexChars]

theorem all_hex_sha256HexChars (m : List Nat) :
    ∀ c ∈ sha256HexChars m, isHexLowerChar c = true := by
  intro c hc
  simp only [sha256HexChars, List.mem_flatten, List.mem_map] at hc
  obtain ⟨l, ⟨x, -, rfl⟩, hcl⟩ := hc
  exact all_hex_wordHexChars x c hcl

end RT

namespace RT

/-! ## Lemmas: decimal printing / parsing -/

theorem length_padDigits (w : Nat) : ∀ n, (padDigits w n).length = w := by
  induction w with
  | zero => intro n; rfl
  | succ w ih => intro n; simp [padDigits, ih]

theorem digitChar_toNat {d : Nat} (h : d < 10) : (digitChar d).toNat = 48 + d := by
  interval_cases d <;> rfl

theorem isDigitChar_digitChar {d : Nat} (h : d < 10) :
    isDigitChar (digitChar d) = true := by
  interval_cases d <;> decide

theorem all_digit_padDigits (w : Nat) : ∀ n, (padDigits w n).all isDigitChar = true := by
  induction w with
  | zero => intro n; rfl
  | succ w ih =>
    intro n
    simp only [padDigits, List.all_append, ih, List.all_cons, List.all_nil,
      Bool.and_true, Bool.true_and]
    exact isDigitChar_digitChar (Nat.mod_lt _ (by norm_num))

theorem digitsVal_padDigits (w : Nat) : ∀ n, n < 10 ^ w →
    digitsVal (padDigits w n) = n := by
  induction w with
  | zero => intro n h; interval_cases n; rfl
  | succ w ih =>
    intro n h
    have hdiv : n / 10 < 10 ^ w := by
      rw [Nat.div_lt_iff_lt_mul (by norm_num)]
      calc n < 10 ^ (w + 1) := h
        _ = 10 ^ w * 10 := by ring
    have hmod : n % 10 < 10 := Nat.mod_lt _ (by norm_num)
    simp only [padDigits, digitsVal, List.foldl_append, List.foldl_cons, List.foldl_nil]
    have : List.foldl (fun a c => a * 10 + (c.toNat - 48)) 0 (padDigits w (n / 10))
        = n / 10 := ih (n / 10) hdiv
    rw [this, digitChar_toNat hmod]
    omega

theorem expectDigits_exact {w n : Nat} {l : List Char} (rest : List Char)
    (hlen : l.length = w) (hall : l.all isDigitChar = true)
    (hval : digitsVal l = n) :
    expectDigits w (l ++ rest) = some (n, rest) := by
  subst hlen hval
  simp [expectDigits, List.take_left, List.drop_left, hall]

theorem expectDigits_padAppend {w n : Nat} (rest : List Char) (h : n < 10 ^ w) :
    expectDigits w (padDigits w n ++ rest) = some (n, rest) :=
  expectDigits_exact rest (length_padDigits w n) (all_digit_padDigits w n)
    (digitsVal_padDigits w n h)

theorem expectChar_cons (c : Char) (rest : List Char) :
    expectChar c (c :: rest) = some rest := by
  simp [expectChar]

theorem takeWhile_all_append {p : Char → Bool} :
    ∀ (l r : List Char), l.all p = true →
      (l ++ r).takeWhile p = l ++ r.takeWhile p := by
  intro l r hl
  induction l with
  | nil => simp
  | cons c cs ih =>
    simp only [List.all_cons, Bool.and_eq_true] at hl
    simp [List.takeWhile_cons, hl.1, ih hl.2]

end RT

namespace RT

/-! ## Lemmas: ISO-8601 round trip -/

theorem drop_left_of_length {l r : List Char} {w : Nat} (hl : l.length = w) :
    (l ++ r).drop w = r := by
  subst hl; exact List.drop_left l r

theorem parseTz_isoTz {off : Int} (h1 : -1439 ≤ off) (h2 : off ≤ 1439) :
    parseTz ((if off < 0 then '-' else '+') ::
      (padDigits 2 (off.natAbs / 60) ++ ':' :: padDigits 2 (off.natAbs % 60))) =
    some (some off) := by
  have hH : off.natAbs / 60 < 10 ^ 2 := by omega
  have hM : off.natAbs % 60 < 10 ^ 2 := by omega
  have exH := expectDigits_padAppend (n := off.natAbs / 60)
    (':' :: padDigits 2 (off.natAbs % 60)) hH
  have exM := expectDigits_exact (w := 2) (n := off.natAbs % 60)
    (l := padDigits 2 (off.natAbs % 60)) [] (length_padDigits 2 _)
    (all_digit_padDigits 2 _) (digitsVal_padDigits 2 _ hM)
  rw [List.append_nil] at exM
  have hle : off.natAbs / 60 * 60 + off.natAbs % 60 ≤ 1439 := by omega
  by_cases hoff : off < 0
  · simp [parseTz, hoff, exH]
    rw [expectChar_cons]
    simp [exM, hle, abs_of_nonpos hoff.le]
    omega
  · simp [parseTz, hoff, exH]
    rw [expectChar_cons]
    simp [exM, hle, abs_of_nonneg (not_lt.mp hoff)]
    omega

theorem parseFraction_pad {us : Nat} (hus : us < 10 ^ 6) (tzChars : List Char)
    (hhead : tzChars = [] ∨ ∃ c r, tzChars = c :: r ∧ c ≠ '.' ∧ isDigitChar c = false) :
    parseFraction ((if us = 0 then [] else '.' :: padDigits 6 us) ++ tzChars) =
      some (us, tzChars) := by
  by_cases hus0 : us = 0
  · subst hus0
    simp only [if_true, List.nil_append]
    rcases hhead with rfl | ⟨c, r, rfl, hne, -⟩
    · rfl
    · simp [parseFraction, hne]
  · simp only [hus0, if_false, List.cons_append, parseFraction]
    have htw : (padDigits 6 us ++ tzChars).takeWhile isDigitChar = padDigits 6 us := by
      rw [takeWhile_all_append _ _ (all_digit_padDigits 6 us)]
      rcases hhead with rfl | ⟨c, r, rfl, -, hnd⟩
      · simp
      · simp [List.takeWhile_cons, hnd]
    rw [if_pos (by decide)]
    rw [htw, length_padDigits]
    rw [show (1 ≤ 6 && 6 ≤ 6) = true from rfl, if_pos rfl]
    rw [show (6 : Nat) - 6 = 0 from rfl, pow_zero, Nat.mul_one,
      digitsVal_padDigits 6 us hus]
    rw [drop_left_of_length (length_padDigits 6 us)]

theorem parseIso_main (y mo d hh mi ss us : Nat) (tz : Option Int) (tzChars : List Char)
    (hy : y < 10 ^ 4) (hmo : mo < 10 ^ 2) (hd : d < 10 ^ 2) (hhh : hh < 10 ^ 2)
    (hmi : mi < 10 ^ 2) (hss : ss < 10 ^ 2)
    (hfrac : parseFraction ((if us = 0 then [] else '.' :: padDigits 6 us) ++ tzChars) =
      some (us, tzChars))
    (htz : parseTz tzChars = some tz)
    (hwf : wfPyDateTime ⟨y, mo, d, hh, mi, ss, us, tz⟩ = true) :
    parseIsoChars
      (padDigits 4 y ++ '-' :: padDigits 2 mo ++ '-' :: padDigits 2 d ++
       'T' :: padDigits 2 hh ++ ':' :: padDigits 2 mi ++
       ':' :: padDigits 2 ss ++
       ((if us = 0 then [] else '.' :: padDigits 6 us) ++ tzChars)) =
    some ⟨y, mo, d, hh, mi, ss, us, tz⟩ := by
  simp only [parseIsoChars, List.append_assoc, List.cons_append]
  rw [expectDigits_padAppend _ hy]
  simp only [Option.bind_eq_bind, Option.some_bind]
  rw [expectChar_cons]
  simp only [Option.bind_eq_bind, Option.some_bind]
  rw [expectDigits_padAppend _ hmo]
  simp only [Option.bind_eq_bind, Option.some_bind]
  rw [expectChar_cons]
  simp only [Option.bind_eq_bind, Option.some_bind]
  rw [expectDigits_padAppend _ hd]
  simp only [Option.bind_eq_bind, Option.some_bind]
  rw [expectDigits_padAppend _ hhh]
  simp only [Option.bind_eq_bind, Option.some_bind]
  rw [expectChar_cons]
  simp only [Option.bind_eq_bind, Option.some_bind]
  rw [expectDigits_padAppend _ hmi]
  simp only [Option.bind_eq_bind, Option.some_bind]
  rw [expectDigits_padAppend _ hss]
  simp only [Option.bind_eq_bind, Option.some_bind]
  rw [hfrac]
  simp only [Option.bind_eq_bind, Option.some_bind]
  rw [htz]
  simp only [Option.bind_eq_bind, Option.some_bind, hwf, if_true]
  simp

theorem parseIso_isoChars (t : PyDateTime) (h : wfPyDateTime t = true) :
    parseIsoChars (isoChars t) = some t := by
  obtain ⟨y, mo, d, hh, mi, ss, us, tz⟩ := t
  have harith : 1 ≤ y ∧ y ≤ 9999 ∧ 1 ≤ mo ∧ mo ≤ 12 ∧ 1 ≤ d ∧
      d ≤ daysInMonth y mo ∧ hh ≤ 23 ∧ mi ≤ 59 ∧ ss ≤ 59 ∧ us ≤ 999999 := by
    simp only [wfPyDateTime, Bool.and_eq_true, decide_eq_true_eq] at h
    tauto
  obtain ⟨h1, h2, h3, h4, h5, h6, h7, h8, h9, h10⟩ := harith
  have hy : y < 10 ^ 4 := by omega
  have hmo : mo < 10 ^ 2 := by omega
  have hd : d < 10 ^ 2 := by
    have : daysInMonth y mo ≤ 31 := by
      simp only [daysInMonth]
      split
      · split <;> omega
      · split <;> omega
    omega
  have hhh : hh < 10 ^ 2 := by omega
  have hmi : mi < 10 ^ 2 := by omega
  have hss : ss < 10 ^ 2 := by omega
  have hus : us < 10 ^ 6 := by omega
  cases tz with
  | none =>
    have main := parseIso_main y mo d hh mi ss us none []
      hy hmo hd hhh hmi hss (parseFraction_pad hus [] (Or.inl rfl)) rfl h
    simp only [isoChars, List.append_assoc, List.cons_append, List.append_nil]
    simp only [List.append_assoc, List.cons_append, List.append_nil] at main
    exact main
  | some off =>
    have hsign : (if off < 0 then '-' else '+') ≠ '.' ∧
        isDigitChar (if off < 0 then '-' else '+') = false := by
      by_cases hoff : off < 0 <;> simp [hoff] <;> decide
    have main := parseIso_main y mo d hh mi ss us (some off)
      ((if off < 0 then '-' else '+') ::
        (padDigits 2 (off.natAbs / 60) ++ ':' :: padDigits 2 (off.natAbs % 60)))
      hy hmo hd hhh hmi hss
      (parseFraction_pad hus _ (Or.inr ⟨_, _, rfl, hsign.1, hsign.2⟩))
      (by
        have hb : -1439 ≤ off ∧ off ≤ 1439 := by
          simp only [wfPyDateTime, Bool.and_eq_true, decide_eq_true_eq] at h
          tauto
        exact parseTz_isoTz hb.1 hb.2) h
    simp only [isoChars, List.append_assoc, List.cons_append]
    simp only [List.append_assoc, List.cons_append] at main
    exact main

end RT

namespace RT

/-! ## Fixtures for concrete witnesses -/

/-- A well-formed concrete capture instant (UTC). -/
def sampleDT : PyDateTime := ⟨2024, 5, 6, 7, 8, 9, 123456, some 0⟩

/-- A concrete resource with the given id value and title. -/
def sampleRes (v title : String) : Resource :=
  ⟨⟨v⟩, title, ⟨"https://example.com"⟩, ⟨sampleDT⟩, ⟨"deadbeef"⟩, [], 0⟩

def resA : Resource := sampleRes "aaaaaaaaaaaa" "Doc One"

def resB : Resource := sampleRes "bbbbbbbbbbbb" "Doc Two"

/-! ## Claims C8 and C5 -/

/-- C8: for every `Resource` whose value objects satisfy their own
constructor invariants (which every Python-constructed `Resource` does),
`Resource.from_dict (Resource.to_dict r)` reproduces `r` in every field,
the capture timestamp round-tripping losslessly through its ISO-8601 text. -/
theorem claim_C8 (r : Resource)
    (hid : validResourceId r.id.value = true)
    (hurl : validUrl r.url.value = true)
    (hdt : wfPyDateTime r.captured_at.dt = true) :
    Resource.from_dict (Resource.to_dict r) = some r := by
  obtain ⟨⟨idv⟩, title, ⟨urlv⟩, ⟨dt⟩, ⟨chv⟩, tags, sc⟩ := r
  simp only at hid hurl hdt
  simp only [Resource.to_dict, Resource.from_dict, mkResourceId, hid, if_true,
    mkUrl, hurl, Timestamp.from_iso, Timestamp.iso,
    Option.bind_eq_bind, Option.some_bind]
  rw [parseIso_isoChars dt hdt]
  rfl

/-- C8 witness: the round trip evaluated at a concrete resource. -/
theorem claim_C8_witness :
    validResourceId (sampleRes "abcd1234abcd" "T").id.value = true ∧
    validUrl (sampleRes "abcd1234abcd" "T").url.value = true ∧
    wfPyDateTime (sampleRes "abcd1234abcd" "T").captured_at.dt = true ∧
    Resource.from_dict (Resource.to_dict (sampleRes "abcd1234abcd" "T")) =
      some (sampleRes "abcd1234abcd" "T") :=
  ⟨by decide, by decide, by decide,
   claim_C8 (sampleRes "abcd1234abcd" "T") (by decide) (by decide) (by decide)⟩

/-- C5 counterexample: the `ResourceId` validation pattern is
`[a-f0-9]{8,16}`, so two valid ids can have different lengths — the claim's
"single fixed length" is false. -/
theorem claim_C5_counterexample :
    validResourceId "abcd1234" = true ∧ validResourceId "abcd1234abcd1234" = true ∧
    ("abcd1234" : String).length ≠ ("abcd1234abcd1234" : String).length := by
  decide

/-- C5 (amended): `ResourceId.from_url` and `ResourceId.from_content` are
deterministic (pure functions) and always produce a 12-character lowercase
hex string; the values accepted by `ResourceId.__post_init__` are exactly
the lowercase hex strings of length 8 through 16 (a range, not one fixed
length). -/
theorem claim_C5 :
    (∀ u : String, (ResourceId.from_url u).value.length = 12 ∧
       (ResourceId.from_url u).value.data.all isHexLowerChar = true ∧
       validResourceId (ResourceId.from_url u).value = true) ∧
    (∀ c : String, (ResourceId.from_content c).value.length = 12 ∧
       (ResourceId.from_content c).value.data.all isHexLowerChar = true ∧
       validResourceId (ResourceId.from_content c).value = true) ∧
    (∀ s : String, validResourceId s = true ↔
       (8 ≤ s.length ∧ s.length ≤ 16 ∧ s.data.all isHexLowerChar = true)) := by
  have key : ∀ s : String, (String.mk ((sha256HexOfString s).take 12)).length = 12 ∧
      (String.mk ((sha256HexOfString s).take 12)).data.all isHexLowerChar = true ∧
      validResourceId (String.mk ((sha256HexOfString s).take 12)) = true := by
    intro s
    have hlen : (String.mk ((sha256HexOfString s).take 12)).length = 12 := by
      show ((sha256HexOfString s).take 12).length = 12
      rw [List.length_take]
      rw [show (sha256HexOfString s).length = 64 from length_sha256HexChars (utf8Bytes s)]
      decide
    have hall : (String.mk ((sha256HexOfString s).take 12)).data.all isHexLowerChar = true := by
      show ((sha256HexOfString s).take 12).all isHexLowerChar = true
      rw [List.all_eq_true]
      intro c hc
      exact all_hex_sha256HexChars _ c (List.take_subset _ _ hc)
    refine ⟨hlen, hall, ?_⟩
    simp [validResourceId, hlen, hall]
  refine ⟨fun u => key u, fun c => key c, fun s => ?_⟩
  simp [validResourceId, Bool.and_eq_true, decide_eq_true_eq, and_assoc]

/-- C5 witness: the amended claim applied at concrete inputs. -/
theorem claim_C5_witness :
    (ResourceId.from_url "https://example.com").value.length = 12 ∧
    validResourceId (ResourceId.from_url "https://example.com").value = true ∧
    (validResourceId "abcd1234" = true ↔
      (8 ≤ ("abcd1234" : String).length ∧ ("abcd1234" : String).length ≤ 16 ∧
       ("abcd1234" : String).data.all isHexLowerChar = true)) :=
  ⟨(claim_C5.1 "https://example.com").1, (claim_C5.1 "https://example.com").2.2,
   claim_C5.2.2 "abcd1234"⟩

end RT

namespace RT

/-! ## Lemmas: counters and the inverted index -/

theorem counterGet_nil (t : String) : counterGet [] t = 0 := rfl

theorem alistFind_eq_none {α : Type} (l : List (String × α)) (k : String) :
    alistFind l k = none ↔ k ∉ l.map Prod.fst := by
  induction l with
  | nil => simp [alistFind]
  | cons p r ih =>
    obtain ⟨k', v⟩ := p
    by_cases hk : k' = k
    · subst hk; simp [alistFind]
    · simp only [alistFind, if_neg hk, List.map_cons, List.mem_cons, ih]
      constructor
      · rintro h (rfl | hm)
        · exact hk rfl
        · exact h hm
      · intro h hm
        exact h (Or.inr hm)

theorem counterGet_eq_zero_of_not_mem {l : List (String × Nat)} {k : String}
    (h : k ∉ l.map Prod.fst) : counterGet l k = 0 := by
  rw [counterGet, (alistFind_eq_none l k).2 h]
  rfl

theorem alistFind_mem {α : Type} {l : List (String × α)} {k : String} {v : α}
    (h : alistFind l k = some v) : (k, v) ∈ l := by
  induction l with
  | nil => simp [alistFind] at h
  | cons p r ih =>
    obtain ⟨k', v'⟩ := p
    by_cases hk : k' = k
    · subst hk
      simp [alistFind] at h
      simp [h]
    · simp [alistFind, hk] at h
      simp [ih h]

theorem counterGet_counterBump (l : List (String × Nat)) (k t : String) :
    counterGet (counterBump l k) t =
      counterGet l t + (if k = t then 1 else 0) := by
  induction l with
  | nil =>
    by_cases hk : k = t <;> simp [counterBump, counterGet, alistFind, hk]
  | cons p r ih =>
    obtain ⟨k', v⟩ := p
    by_cases h1 : k' = k
    · subst h1
      by_cases h2 : k' = t <;> simp [counterBump, counterGet, alistFind, h2] <;> omega
    · by_cases h2 : k' = t
      · subst h2
        have : ¬(k = k') := fun h => h1 h.symm
        simp [counterBump, counterGet, alistFind, h1, this]
      · simp only [counterBump, h1, if_false, counterGet, alistFind, h2] at *
        exact ih

theorem counterGet_counterBumpBy (l : List (String × Nat)) (k t : String) (n : Nat) :
    counterGet (counterBumpBy l k n) t =
      counterGet l t + (if k = t then n else 0) := by
  induction l with
  | nil =>
    by_cases hk : k = t <;> simp [counterBumpBy, counterGet, alistFind, hk]
  | cons p r ih =>
    obtain ⟨k', v⟩ := p
    by_cases h1 : k' = k
    · subst h1
      by_cases h2 : k' = t <;> simp [counterBumpBy, counterGet, alistFind, h2] <;> omega
    · by_cases h2 : k' = t
      · subst h2
        have hkt : ¬(k = k') := fun h => h1 h.symm
        simp [counterBumpBy, counterGet, alistFind, h1, hkt]
      · simp only [counterBumpBy, h1, if_false, counterGet, alistFind, h2] at *
        exact ih

theorem keys_counterBumpBy (l : List (String × Nat)) (k : String) (n : Nat) :
    (counterBumpBy l k n).map Prod.fst = l.map Prod.fst ∨
    (counterBumpBy l k n).map Prod.fst = l.map Prod.fst ++ [k] := by
  induction l with
  | nil => simp [counterBumpBy]
  | cons p r ih =>
    obtain ⟨k', v⟩ := p
    by_cases h1 : k' = k
    · subst h1; simp [counterBumpBy]
    · rcases ih with h | h <;> simp [counterBumpBy, h1, h]

theorem nodup_keys_counterBumpBy {l : List (String × Nat)} (k : String) (n : Nat)
    (h : (l.map Prod.fst).Nodup) : ((counterBumpBy l k n).map Prod.fst).Nodup := by
  induction l with
  | nil => simp [counterBumpBy]
  | cons p r ih =>
    obtain ⟨k', v⟩ := p
    simp only [List.map_cons, List.nodup_cons] at h
    by_cases h1 : k' = k
    · subst h1
      have he : counterBumpBy ((k', v) :: r) k' n = (k', v + n) :: r := by
        simp [counterBumpBy]
      rw [he]
      simp only [List.map_cons, List.nodup_cons]
      exact ⟨h.1, h.2⟩
    · simp only [counterBumpBy, if_neg h1, List.map_cons, List.nodup_cons]
      refine ⟨?_, ih h.2⟩
      rcases keys_counterBumpBy r k n with hk | hk
      · rw [hk]; exact h.1
      · rw [hk]
        simp only [List.mem_append, List.mem_singleton]
        rintro (hm | rfl)
        · exact h.1 hm
        · exact h1 rfl

theorem counterGet_addCounts {c : List (String × Nat)} (sc : List (String × Nat))
    (t : String) (hc : (c.map Prod.fst).Nodup) :
    counterGet (c.foldl (fun sc p => counterBumpBy sc p.1 p.2) sc) t =
      counterGet sc t + counterGet c t := by
  induction c generalizing sc with
  | nil => simp [counterGet, alistFind]
  | cons p r ih =>
    obtain ⟨k, v⟩ := p
    simp only [List.map_cons, List.nodup_cons] at hc
    simp only [List.foldl_cons]
    rw [ih _ hc.2, counterGet_counterBumpBy]
    by_cases hk : k = t
    · subst hk
      rw [counterGet_eq_zero_of_not_mem hc.1]
      simp [counterGet, alistFind]
    · simp [counterGet, alistFind, hk]
      try omega

theorem nodup_keys_addCounts {c : List (String × Nat)} (sc : List (String × Nat))
    (hsc : (sc.map Prod.fst).Nodup) :
    (((c.foldl (fun sc p => counterBumpBy sc p.1 p.2) sc)).map Prod.fst).Nodup := by
  induction c generalizing sc with
  | nil => exact hsc
  | cons p r ih => exact ih _ (nodup_keys_counterBumpBy p.1 p.2 hsc)

/-- Key-uniqueness invariant of the Python dicts inside `_index`
(reducible so that decidability is found for concrete states). -/
abbrev wfIndex (st : IndexState) : Prop :=
  ∀ p ∈ st.index, (p.2.map Prod.fst).Nodup

/-- The summed score of one resource id for a query. -/
def scoreOf (st : IndexState) (q rid : String) : Nat :=
  counterGet (scoresFor st q) rid

theorem nodup_keys_scoresStep (st : IndexState) (sc : List (String × Nat))
    (tm : String) (hsc : (sc.map Prod.fst).Nodup) :
    ((scoresStep st sc tm).map Prod.fst).Nodup := by
  rw [scoresStep]
  cases alistFind st.index tm with
  | none => exact hsc
  | some c => exact nodup_keys_addCounts sc hsc

theorem nodup_keys_scoresFor (st : IndexState) (q : String) :
    ((scoresFor st q).map Prod.fst).Nodup := by
  rw [scoresFor]
  generalize tokenize q = terms
  have h0 : (([] : List (String × Nat)).map Prod.fst).Nodup := by simp
  generalize ([] : List (String × Nat)) = sc at h0 ⊢
  induction terms generalizing sc with
  | nil => exact h0
  | cons tm ts ih =>
    simp only [List.foldl_cons]
    exact ih _ (nodup_keys_scoresStep st sc tm h0)

theorem counterGet_scoresStep {st : IndexState} (hwf : wfIndex st)
    (sc : List (String × Nat)) (tm rid : String) :
    counterGet (scoresStep st sc tm) rid = counterGet sc rid + st.countOf tm rid := by
  rw [scoresStep, IndexState.countOf]
  cases h : alistFind st.index tm with
  | none => simp [counterGet, alistFind]
  | some c =>
    have hc : (c.map Prod.fst).Nodup := hwf (tm, c) (alistFind_mem h)
    rw [counterGet_addCounts sc rid hc]
    rfl

theorem scoreOf_eq_sum {st : IndexState} (hwf : wfIndex st) (q rid : String) :
    scoreOf st q rid = ((tokenize q).map (fun t => st.countOf t rid)).sum := by
  rw [scoreOf, scoresFor]
  generalize tokenize q = terms
  have key : ∀ (sc : List (String × Nat)),
      counterGet (terms.foldl (scoresStep st) sc) rid =
        counterGet sc rid + (terms.map (fun t => st.countOf t rid)).sum := by
    induction terms with
    | nil => intro sc; simp
    | cons tm ts ih =>
      intro sc
      simp only [List.foldl_cons, List.map_cons, List.sum_cons]
      rw [ih, counterGet_scoresStep hwf]
      omega
  rw [key []]
  simp [counterGet, alistFind]

end RT

namespace RT

/-! ## Lemmas: `index_resource` accumulation -/

theorem countOf_indexBump (ix : List (String × List (String × Nat)))
    (term rid t rid' : String) :
    counterGet ((alistFind (indexBump ix term rid) t).getD []) rid' =
      counterGet ((alistFind ix t).getD []) rid' +
        (if term = t ∧ rid = rid' then 1 else 0) := by
  induction ix with
  | nil =>
    by_cases h1 : term = t
    · subst h1
      simp [indexBump, alistFind, counterGet]
      by_cases h3 : rid = rid' <;> simp [h3]
    · simp [indexBump, alistFind, h1]
  | cons p r ih =>
    obtain ⟨t0, c⟩ := p
    by_cases h1 : t0 = term
    · subst h1
      by_cases h2 : t0 = t
      · subst h2
        have e1 : indexBump ((t0, c) :: r) t0 rid = (t0, counterBump c rid) :: r := by
          simp [indexBump]
        have e2 : ∀ x : List (String × Nat), alistFind ((t0, x) :: r) t0 = some x := by
          intro x; simp [alistFind]
        rw [e1, e2, e2]
        simp only [Option.getD_some]
        rw [counterGet_counterBump]
        by_cases h3 : rid = rid' <;> simp [h3]
      · simp [indexBump, alistFind, h2]
    · by_cases h2 : t0 = t
      · subst h2
        have hne : ¬(term = t0) := fun h => h1 h.symm
        have e1 : indexBump ((t0, c) :: r) term rid = (t0, c) :: indexBump r term rid := by
          simp [indexBump, h1]
        have e2 : ∀ x : List (String × Nat),
            alistFind ((t0, x) :: r) t0 = some x := by
          intro x; simp [alistFind]
        rw [e1, e2]
        have e3 : alistFind ((t0, c) :: indexBump r term rid) t0 = some c := by
          simp [alistFind]
        rw [e3]
        simp [hne]
      · have e1 : indexBump ((t0, c) :: r) term rid = (t0, c) :: indexBump r term rid := by
          simp [indexBump, h1]
        rw [e1]
        have e2 : ∀ l : List (String × List (String × Nat)),
            alistFind ((t0, c) :: l) t = alistFind l t := by
          intro l; simp [alistFind, h2]
        rw [e2, e2]
        exact ih

theorem countOf_foldBump (terms : List String)
    (ix : List (String × List (String × Nat))) (rid t rid' : String) :
    counterGet ((alistFind (terms.foldl (fun ix tm => indexBump ix tm rid) ix) t).getD [])
      rid' =
      counterGet ((alistFind ix t).getD []) rid' +
        (if rid = rid' then terms.count t else 0) := by
  induction terms generalizing ix with
  | nil => simp
  | cons tm ts ih =>
    simp only [List.foldl_cons]
    rw [ih, countOf_indexBump]
    rw [List.count_cons]
    by_cases h1 : rid = rid' <;> by_cases h2 : tm = t <;>
      simp [h1, h2, beq_iff_eq] <;> omega

theorem index_foldl_states (terms : List String) (st : IndexState) (rid : String) :
    (terms.foldl (fun st term => { st with index := indexBump st.index term rid }) st).index
      = terms.foldl (fun ix term => indexBump ix term rid) st.index := by
  induction terms generalizing st with
  | nil => rfl
  | cons tm ts ih =>
    simp only [List.foldl_cons]
    rw [ih]

/-- The per-token count added by one `index_resource` call. -/
theorem countOf_index_resource (st : IndexState) (r : Resource) (c : String)
    (t : String) :
    (index_resource st r c).countOf t r.id.value =
      st.countOf t r.id.value +
        (tokenize (r.title ++ " " ++ c)).count t := by
  rw [IndexState.countOf, IndexState.countOf, index_resource]
  simp only [index_foldl_states]
  rw [countOf_foldBump]
  simp

end RT

namespace RT

/-! ## Lemmas: `most_common` ranking -/

theorem perm_insertDesc (x : String × Nat) (l : List (String × Nat)) :
    (insertDesc x l).Perm (x :: l) := by
  induction l with
  | nil => exact List.Perm.refl _
  | cons y r ih =>
    by_cases h : x.2 ≤ y.2
    · simp only [insertDesc, if_pos h]
      exact (ih.cons y).trans (List.Perm.swap x y r)
    · simp only [insertDesc, if_neg h]
      exact List.Perm.refl _

theorem perm_sortDesc_aux (l acc : List (String × Nat)) :
    (l.foldl (fun acc x => insertDesc x acc) acc).Perm (l ++ acc) := by
  induction l generalizing acc with
  | nil => exact List.Perm.refl _
  | cons x r ih =>
    simp only [List.foldl_cons, List.cons_append]
    exact (ih (insertDesc x acc)).trans
      (((perm_insertDesc x acc).append_left r).trans List.perm_middle)

theorem perm_sortDesc (l : List (String × Nat)) : (sortDesc l).Perm l := by
  have := perm_sortDesc_aux l []
  rw [List.append_nil] at this
  exact this

theorem pairwise_insertDesc (x : String × Nat) {l : List (String × Nat)}
    (h : l.Pairwise (fun a b : String × Nat => b.2 ≤ a.2)) :
    (insertDesc x l).Pairwise (fun a b : String × Nat => b.2 ≤ a.2) := by
  induction l with
  | nil => simp [insertDesc]
  | cons y r ih =>
    rw [List.pairwise_cons] at h
    by_cases hx : x.2 ≤ y.2
    · simp only [insertDesc, if_pos hx]
      rw [List.pairwise_cons]
      refine ⟨fun b hb => ?_, ih h.2⟩
      rcases List.mem_cons.1 ((perm_insertDesc x r).mem_iff.1 hb) with rfl | hbr
      · exact hx
      · exact h.1 b hbr
    · simp only [insertDesc, if_neg hx]
      rw [List.pairwise_cons]
      refine ⟨fun b hb => ?_, List.pairwise_cons.2 h⟩
      rcases List.mem_cons.1 hb with rfl | hbr
      · omega
      · have := h.1 b hbr
        omega

theorem pairwise_sortDesc_aux (l : List (String × Nat))
    {acc : List (String × Nat)}
    (hacc : acc.Pairwise (fun a b : String × Nat => b.2 ≤ a.2)) :
    (l.foldl (fun acc x => insertDesc x acc) acc).Pairwise
      (fun a b : String × Nat => b.2 ≤ a.2) := by
  induction l generalizing acc with
  | nil => exact hacc
  | cons x r ih => exact ih (pairwise_insertDesc x hacc)

theorem pairwise_sortDesc (l : List (String × Nat)) :
    (sortDesc l).Pairwise (fun a b : String × Nat => b.2 ≤ a.2) :=
  pairwise_sortDesc_aux l (List.Pairwise.nil)

theorem pairwise_mostCommon (scores : List (String × Nat)) (k : Nat) :
    (mostCommon scores k).Pairwise (fun a b : String × Nat => b.2 ≤ a.2) :=
  (pairwise_sortDesc scores).sublist (List.take_sublist _ _)

theorem mostCommon_topk (scores : List (String × Nat)) (k : Nat) :
    ∀ p ∈ scores, p ∉ mostCommon scores k →
      ∀ p' ∈ mostCommon scores k, p.2 ≤ p'.2 := by
  intro p hp hnp p' hp'
  have hpmem : p ∈ sortDesc scores := (perm_sortDesc scores).mem_iff.2 hp
  rw [← List.take_append_drop k (sortDesc scores)] at hpmem
  rcases List.mem_append.1 hpmem with h | h
  · exact absurd h hnp
  · have hpair := pairwise_sortDesc scores
    rw [← List.take_append_drop k (sortDesc scores)] at hpair
    exact (List.pairwise_append.1 hpair).2.2 p' hp' p h

/-! ## Claims C9 and C1 -/

/-- C9: `index_resource` accumulates: one call adds, for each token `t` of
`title + " " + content`, the token's multiplicity to the count for the
resource id (never resetting), so from any state with no existing count at
`(t, id)`, a second identical call leaves exactly twice the count a single
call produces. -/
theorem claim_C9 (st : IndexState) (r : Resource) (c : String) (t : String) :
    (index_resource st r c).countOf t r.id.value =
      st.countOf t r.id.value + (tokenize (r.title ++ " " ++ c)).count t ∧
    (st.countOf t r.id.value = 0 →
      (index_resource (index_resource st r c) r c).countOf t r.id.value =
        2 * (index_resource st r c).countOf t r.id.value) := by
  refine ⟨countOf_index_resource st r c t, fun h0 => ?_⟩
  rw [countOf_index_resource, countOf_index_resource, h0]
  omega

/-- C9 witness: double indexing doubles a concrete token count. -/
theorem claim_C9_witness :
    IndexState.empty.countOf "beta" resA.id.value = 0 ∧
    (index_resource (index_resource IndexState.empty resA "beta beta")
        resA "beta beta").countOf "beta" resA.id.value =
      2 * (index_resource IndexState.empty resA "beta beta").countOf
        "beta" resA.id.value :=
  ⟨rfl, (claim_C9 IndexState.empty resA "beta beta" "beta").2 rfl⟩

/-- The indexed state of the C1 ranking scenario: resource A (body
"alpha beta beta") indexed before resource B (body "beta"), titles without
a `beta` token. -/
def stAB : IndexState :=
  index_resource (index_resource IndexState.empty resA "alpha beta beta")
    resB "beta"

/-- C1: `search_local` tokenizes the query with `_tokenize`, scores each
resource id by the sum of its per-token occurrence counts over the query
tokens, and returns the top-k ids in descending score order; concretely,
searching "beta" in the A/B scenario returns A before B. -/
theorem claim_C1 :
    (∀ (st : IndexState) (q : String) (k : Nat),
       search_local st q k =
         (mostCommon (scoresFor st q) k).map (fun p => (⟨p.1⟩ : ResourceId)) ∧
       (search_local st q k).length ≤ k ∧
       (mostCommon (scoresFor st q) k).Pairwise
         (fun a b : String × Nat => b.2 ≤ a.2) ∧
       (∀ p ∈ scoresFor st q, p ∉ mostCommon (scoresFor st q) k →
          ∀ p' ∈ mostCommon (scoresFor st q) k, p.2 ≤ p'.2)) ∧
    (∀ (st : IndexState) (q rid : String), wfIndex st →
       scoreOf st q rid = ((tokenize q).map (fun t => st.countOf t rid)).sum) ∧
    search_local stAB "beta" 5 = [resA.id, resB.id] := by
  refine ⟨fun st q k => ⟨rfl, ?_, pairwise_mostCommon _ k, mostCommon_topk _ k⟩,
    fun st q rid hwf => scoreOf_eq_sum hwf q rid, by decide⟩
  rw [search_local, List.length_map, mostCommon]
  exact List.length_take_le _ _

/-- C1 witness: the score-sum equation and the top-k dominance at concrete
inputs. -/
theorem claim_C1_witness :
    wfIndex stAB ∧
    scoreOf stAB "beta" "aaaaaaaaaaaa" =
      ((tokenize "beta").map (fun t => stAB.countOf t "aaaaaaaaaaaa")).sum ∧
    ("bbbbbbbbbbbb", 1) ∈ scoresFor stAB "beta" ∧
    ("bbbbbbbbbbbb", 1) ∉ mostCommon (scoresFor stAB "beta") 1 ∧
    ("aaaaaaaaaaaa", 2) ∈ mostCommon (scoresFor stAB "beta") 1 ∧
    (("bbbbbbbbbbbb", 1) : String × Nat).2 ≤ (("aaaaaaaaaaaa", 2) : String × Nat).2 :=
  ⟨by decide,
   claim_C1.2.1 stAB "beta" "aaaaaaaaaaaa" (by decide),
   by decide, by decide, by decide,
   (claim_C1.1 stAB "beta" 1).2.2.2 ("bbbbbbbbbbbb", 1) (by decide) (by decide)
     ("aaaaaaaaaaaa", 2) (by decide)⟩

end RT

namespace RT

/-- A resource sharing `resA`'s id with a different title (ledger
duplicate). -/
def resA2 : Resource := sampleRes "aaaaaaaaaaaa" "Doc One Duplicate"

/-- A concrete parse function for load witnesses: line "A" parses to
`resA`, line "B" to `resA2` (same id), anything else fails. -/
def parseW : String → Option Resource :=
  fun s => if s = "A" then some resA else if s = "B" then some resA2 else none

end RT

namespace RT

/-! ## Lemmas: `_load` dedup and skipping -/

theorem loadStep_seen_mono {parse : String → Option Resource}
    {contentOf : String → Option String} {st : LoadState} {l : String}
    {x : String} (h : x ∈ st.seen) : x ∈ (loadStep parse contentOf st l).seen := by
  rw [loadStep]
  split
  · exact h
  · cases hp : parse (pyStrip l) with
    | none => exact h
    | some r =>
      simp only
      split
      · exact h
      · simp only [List.mem_append]
        exact Or.inl h

theorem foldl_seen_mono (parse : String → Option Resource)
    (contentOf : String → Option String) (lines : List String) (st : LoadState)
    {x : String} (h : x ∈ st.seen) :
    x ∈ (lines.foldl (loadStep parse contentOf) st).seen := by
  induction lines generalizing st with
  | nil => exact h
  | cons l ls ih => exact ih _ (loadStep_seen_mono h)

theorem loadStep_seen_insert {parse : String → Option Resource}
    {contentOf : String → Option String} (st : LoadState) {l : String}
    {r : Resource} (hne : pyStrip l ≠ "") (hp : parse (pyStrip l) = some r) :
    r.id.value ∈ (loadStep parse contentOf st l).seen := by
  rw [loadStep, if_neg hne, hp]
  simp only
  by_cases hseen : st.seen.contains r.id.value
  · rw [if_pos hseen]
    simpa using hseen
  · rw [if_neg hseen]
    simp

theorem foldl_seen_of_parsed (parse : String → Option Resource)
    (contentOf : String → Option String) (pre : List String) (st : LoadState)
    {r : Resource}
    (h : ∃ l0 ∈ pre, ∃ r0 : Resource, pyStrip l0 ≠ "" ∧
      parse (pyStrip l0) = some r0 ∧ r0.id.value = r.id.value) :
    r.id.value ∈ (pre.foldl (loadStep parse contentOf) st).seen := by
  induction pre generalizing st with
  | nil => obtain ⟨l0, hl0, -⟩ := h; simp at hl0
  | cons a rest ih =>
    obtain ⟨l0, hl0, r0, hne, hp, hid⟩ := h
    rcases List.mem_cons.1 hl0 with rfl | hmem
    · rw [List.foldl_cons]
      refine foldl_seen_mono parse contentOf rest _ ?_
      rw [← hid]
      exact loadStep_seen_insert st hne hp
    · rw [List.foldl_cons]
      exact ih _ ⟨l0, hmem, r0, hne, hp, hid⟩

theorem loadStep_skip_seen {parse : String → Option Resource}
    {contentOf : String → Option String} {st : LoadState} {l : String}
    {r : Resource} (hp : parse (pyStrip l) = some r)
    (hseen : r.id.value ∈ st.seen) :
    loadStep parse contentOf st l = st := by
  rw [loadStep]
  split
  · rfl
  · rw [hp]
    simp only
    rw [if_pos (by simpa using hseen)]

theorem loadStep_skip_bad {parse : String → Option Resource}
    {contentOf : String → Option String} {st : LoadState} {l : String}
    (h : pyStrip l = "" ∨ parse (pyStrip l) = none) :
    loadStep parse contentOf st l = st := by
  rw [loadStep]
  rcases h with h | h
  · rw [if_pos h]
  · split
    · rfl
    · rw [h]

/-! ## Claims C3 and C10 -/

/-- C3: duplicate ledger lines are loaded once, first occurrence wins: a
line whose parsed resource id already appeared on an earlier (non-blank,
parseable) line leaves the load result — resources and token counts —
exactly as if the line were absent. -/
theorem claim_C3 (parse : String → Option Resource)
    (contentOf : String → Option String) (pre : List String) (L : String)
    (post : List String) (r : Resource)
    (hne : pyStrip L ≠ "") (hp : parse (pyStrip L) = some r)
    (hdup : ∃ l0 ∈ pre, ∃ r0 : Resource, pyStrip l0 ≠ "" ∧
      parse (pyStrip l0) = some r0 ∧ r0.id.value = r.id.value) :
    loadLedger parse contentOf (pre ++ L :: post) =
      loadLedger parse contentOf (pre ++ post) := by
  rw [loadLedger, loadLedger, List.foldl_append, List.foldl_append,
    List.foldl_cons]
  rw [loadStep_skip_seen hp (foldl_seen_of_parsed parse contentOf pre _ hdup)]

/-- C3 witness: a concrete two-line ledger with a duplicated id. -/
theorem claim_C3_witness :
    pyStrip "B" ≠ "" ∧ parseW (pyStrip "B") = some resA2 ∧
    (pyStrip "A" ≠ "" ∧ parseW (pyStrip "A") = some resA ∧
      resA.id.value = resA2.id.value) ∧
    loadLedger parseW (fun _ => none) (["A"] ++ "B" :: []) =
      loadLedger parseW (fun _ => none) (["A"] ++ []) := by
  refine ⟨by decide, by decide, ⟨by decide, by decide, by decide⟩, ?_⟩
  exact claim_C3 parseW (fun _ => none) ["A"] "B" [] resA2 (by decide) (by decide)
    ⟨"A", by decide, resA, by decide, by decide, by decide⟩

/-- C10 lemma: the fold stays failed once an uncaught exception occurred. -/
theorem foldl_loadAcc_error (parse : String → ParseOutcome)
    (contentOf : String → Option String) (lines : List String) :
    lines.foldl (loadAcc parse contentOf) (.error ()) =
      (.error () : Except Unit LoadState) := by
  induction lines with
  | nil => rfl
  | cons l ls ih => simpa [loadAcc] using ih

/-- C10 lemma: a blank or caught-exception line is a no-op step. -/
theorem loadStepE_skip {parse : String → ParseOutcome}
    {contentOf : String → Option String} {st : LoadState} {L : String}
    (h : pyStrip L = "" ∨ parse (pyStrip L) = .caught) :
    loadStepE parse contentOf st L = .ok st := by
  rw [loadStepE]
  rcases h with h | h
  · rw [if_pos h]
  · split
    · rfl
    · rw [h]

theorem loadAcc_skip {parse : String → ParseOutcome}
    {contentOf : String → Option String} {L : String}
    (acc : Except Unit LoadState)
    (h : pyStrip L = "" ∨ parse (pyStrip L) = .caught) :
    loadAcc parse contentOf acc L = acc := by
  cases acc with
  | error e => rfl
  | ok st => exact loadStepE_skip h

/-- Line-level parse outcomes for the C10 ledgers: line "A" is a good
record; line "42" is valid JSON but not an object, so `data["id"]` raises
`TypeError`, which the except tuple does not catch; anything else raises a
caught exception. -/
def parseU : String → ParseOutcome :=
  fun s => if s = "A" then .ok resA else if s = "42" then .uncaught else .caught

/-- C10 counterexample: a ledger whose first line is the valid-JSON
non-record `42` aborts index construction — the valid later line "A" is
never loaded — although "A" alone loads fine.  This refutes "a malformed
line never aborts construction and never prevents valid later lines from
being loaded". -/
theorem claim_C10_counterexample :
    loadLedgerE parseU (fun _ => none) ["42", "A"] = .error () ∧
    (∃ st : LoadState, loadLedgerE parseU (fun _ => none) ["A"] = .ok st) :=
  ⟨rfl, ⟨_, rfl⟩⟩

/-- C10 (amended, implicit): a ledger line that is blank or raises an
exception in the `except (json.JSONDecodeError, KeyError, ValueError)`
tuple (bad JSON, missing key, invalid string-typed field) is silently
skipped and loading continues; but a line raising an exception outside
that tuple — valid JSON that is not a string-keyed record, such as `42` or
`{"id": 42}` (`TypeError`) — aborts construction, and no later line is
loaded. -/
theorem claim_C10 :
    (∀ (parse : String → ParseOutcome) (contentOf : String → Option String)
       (pre : List String) (L : String) (post : List String),
       (pyStrip L = "" ∨ parse (pyStrip L) = .caught) →
       loadLedgerE parse contentOf (pre ++ L :: post) =
         loadLedgerE parse contentOf (pre ++ post)) ∧
    (∀ (parse : String → ParseOutcome) (contentOf : String → Option String)
       (pre : List String) (L : String) (post : List String),
       pyStrip L ≠ "" → parse (pyStrip L) = .uncaught →
       loadLedgerE parse contentOf (pre ++ L :: post) = .error ()) := by
  constructor
  · intro parse contentOf pre L post h
    rw [loadLedgerE, loadLedgerE, List.foldl_append, List.foldl_append,
      List.foldl_cons, loadAcc_skip _ h]
  · intro parse contentOf pre L post hne hp
    rw [loadLedgerE, List.foldl_append, List.foldl_cons]
    have hstep : ∀ st : LoadState, loadStepE parse contentOf st L = .error () := by
      intro st
      rw [loadStepE, if_neg hne, hp]
    cases hacc : List.foldl (loadAcc parse contentOf) (.ok LoadState.init) pre with
    | error e =>
      rw [show loadAcc parse contentOf (.error e) L = .error e from rfl]
      exact foldl_loadAcc_error parse contentOf post
    | ok st =>
      rw [show loadAcc parse contentOf (.ok st) L =
        loadStepE parse contentOf st L from rfl, hstep st]
      exact foldl_loadAcc_error parse contentOf post

/-- C10 witness: a blank line is skipped with loading continuing, and the
`42` line aborts a concrete ledger. -/
theorem claim_C10_witness :
    (pyStrip "  " = "" ∨ parseU (pyStrip "  ") = .caught) ∧
    loadLedgerE parseU (fun _ => none) (["A"] ++ "  " :: ["B"]) =
      loadLedgerE parseU (fun _ => none) (["A"] ++ ["B"]) ∧
    pyStrip "42" ≠ "" ∧ parseU (pyStrip "42") = .uncaught ∧
    loadLedgerE parseU (fun _ => none) (["A"] ++ "42" :: ["B"]) = .error () :=
  ⟨Or.inl (by decide),
   claim_C10.1 parseU (fun _ => none) ["A"] "  " ["B"] (Or.inl (by decide)),
   by decide, by decide,
   claim_C10.2 parseU (fun _ => none) ["A"] "42" ["B"] (by decide) (by decide)⟩

end RT

namespace RT

/-! ## Lemmas: title extraction -/

/-- The fallback only matters in the final `return fallback`, so the
heuristic is idempotent in the fallback slot. -/
theorem extract_title_idem (c f : String) :
    extract_title c (extract_title c f) = extract_title c f := by
  rw [extract_title, extract_title]
  cases h : titleScan c <;> simp [h]

/-- C6: reindex is idempotent on titles — a second run directly after a
first fixes zero titles, for every store state. -/
theorem claim_C6 (entries : List RDirEntry) :
    (reindexExecute (reindexExecute entries).2.1).1.titles_fixed = 0 := by
  have key : ∀ e : RDirEntry, (reindexEntry ((reindexEntry e).2.2.2.1)).2.1 = 0 := by
    intro e
    obtain ⟨name, meta, content⟩ := e
    match meta with
    | none => rfl
    | some none => rfl
    | some (some r) =>
      simp only [reindexEntry]
      by_cases hne : extract_title (content.getD "") r.title ≠ r.title
      · rw [if_pos hne]
        simp only [reindexEntry]
        rw [if_neg]
        simp only [ne_eq, not_not]
        exact extract_title_idem (content.getD "") r.title
      · rw [if_neg hne]
        simp only [reindexEntry]
        rw [if_neg hne]
  simp only [reindexExecute, List.map_map]
  apply List.sum_eq_zero
  intro x hx
  simp only [List.map_map, List.mem_map, Function.comp] at hx
  obtain ⟨e, -, rfl⟩ := hx
  exact key e

/-! ## Lemmas: the line scan of the heuristic -/

/-- One line's contribution to the no-frontmatter scan: a level-1 heading
yields its text, else a non-empty line under 200 characters yields itself. -/
def lineHit (line : String) : Option String :=
  let stripped := pyStrip line
  if pyStartsWith stripped "# " then
    some (pyStrip (String.mk (stripped.data.drop 2)))
  else if stripped ≠ "" && stripped.length < 200 then some stripped
  else none

theorem scanPlain_eq_findSome (ls : List String) :
    scanPlain ls = ls.findSome? lineHit := by
  induction ls with
  | nil => rfl
  | cons l r ih =>
    rw [List.findSome?_cons]
    by_cases h1 : pyStartsWith (pyStrip l) "# "
    · simp [scanPlain, lineHit, h1]
    · by_cases h2 : ¬pyStrip l = "" ∧ (pyStrip l).length < 200
      · simp [scanPlain, lineHit, h1, h2]
      · simp [scanPlain, lineHit, h1, h2, ih]

/-- C7 counterexample: the document "intro\n# My Heading" contains a
level-1 heading line, yet the extracted title is the earlier short line
"intro", not the heading text. -/
theorem claim_C7_counterexample :
    ("# My Heading" ∈ splitLines "intro\n# My Heading") ∧
    extract_title "intro\n# My Heading" "fb" = "intro" ∧
    ("intro" : String) ≠ "My Heading" := by
  refine ⟨by decide, by decide, by decide⟩

/-- C7 (amended): without frontmatter the scan is a single left-to-right
pass: the title is the first line that is either a level-1 heading (its
text) or a non-empty line under 200 characters (itself) — a later heading
does not override an earlier short line; the scenario
`"# My Heading\nbody" ↦ "My Heading"` holds. -/
theorem claim_C7 :
    extract_title "# My Heading\nbody" "fb" = "My Heading" ∧
    (∀ content fb : String,
       pyStrip ((splitLines content).headD "") ≠ "---" →
       pyStrip ((splitLines content).headD "") ≠ "+++" →
       extract_title content fb =
         (((splitLines content).findSome? lineHit).getD fb)) := by
  refine ⟨by decide, fun content fb h1 h2 => ?_⟩
  rw [extract_title, titleScan]
  simp only [h1, h2]
  rw [if_neg (by simp [h1, h2])]
  rw [scanPlain_eq_findSome]

/-- C7 witness: the first-hit rule applied to a concrete document. -/
theorem claim_C7_witness :
    pyStrip ((splitLines "intro\n# My Heading").headD "") ≠ "---" ∧
    pyStrip ((splitLines "intro\n# My Heading").headD "") ≠ "+++" ∧
    extract_title "intro\n# My Heading" "fb" =
      (((splitLines "intro\n# My Heading").findSome? lineHit).getD "fb") :=
  ⟨by decide, by decide,
   claim_C7.2 "intro\n# My Heading" "fb" (by decide) (by decide)⟩

end RT

namespace RT

/-! ## Claims C2 and C4 (ingest) -/

/-- Title of a successful ingest outcome. -/
def ingestTitle (res : StoreState × IndexState × Except String IngestResponse) :
    Option String :=
  match res.2.2 with
  | .ok resp => some resp.resource.title
  | .error _ => none

/-- The local filesystem of the C2 scenario: one markdown file whose
content carries a frontmatter `title:` field. -/
def filesC2 : String → Option String :=
  fun p => if p = "doc.md" then some "---\ntitle: Hello World\n---\nbody text"
           else none

/-- A snapshotter that never returns text. -/
def captureNone : String → Option String × Option String := fun _ => (none, none)

/-- C2 counterexample: ingesting that file as a local file titles the
resource "doc.md" (the basename), not the frontmatter value
"Hello World" — `execute` never applies `_extract_title` on the local
branch. -/
theorem claim_C2_counterexample :
    ingestTitle (ingestExecute captureNone filesC2 sampleDT StoreState.empty
      IndexState.empty "doc.md") = some "doc.md" ∧
    ("doc.md" : String) ≠ "Hello World" :=
  ⟨rfl, by decide⟩

/-- C2 (amended): the title heuristic itself does extract "Hello World"
from that content (and is what URL ingestion and reindex use), but local
file ingestion always titles the resource with the file's basename. -/
theorem claim_C2 :
    (∀ fb : String,
      extract_title "---\ntitle: Hello World\n---\nbody text" fb = "Hello World") ∧
    (∀ (capture : String → Option String × Option String)
       (files : String → Option String) (now : PyDateTime)
       (store : StoreState) (ix : IndexState) (path content : String),
       pyStartsWith path "http://" = false →
       pyStartsWith path "https://" = false →
       files path = some content →
       resource_exists store (ResourceId.from_content content) = false →
       pyStrip content ≠ "" →
       ingestTitle (ingestExecute capture files now store ix path) =
         some (pyBasename path)) := by
  refine ⟨fun fb => ?_, ?_⟩
  · rw [extract_title, show titleScan "---\ntitle: Hello World\n---\nbody text" =
      some "Hello World" from by decide]
    rfl
  intro capture files now store ix path content h1 h2 hfile hex hne
  rw [ingestExecute]
  simp only [h1, h2, Bool.or_self, Bool.false_eq_true, if_false, hfile]
  rw [if_neg (by simp [hex])]
  rw [ingestFinish, if_neg hne]
  rfl

/-- C2 witness: the amended claim at the scenario file. -/
theorem claim_C2_witness :
    pyStartsWith "doc.md" "http://" = false ∧
    pyStartsWith "doc.md" "https://" = false ∧
    filesC2 "doc.md" = some "---\ntitle: Hello World\n---\nbody text" ∧
    resource_exists StoreState.empty
      (ResourceId.from_content "---\ntitle: Hello World\n---\nbody text") = false ∧
    pyStrip "---\ntitle: Hello World\n---\nbody text" ≠ "" ∧
    ingestTitle (ingestExecute captureNone filesC2 sampleDT StoreState.empty
      IndexState.empty "doc.md") = some (pyBasename "doc.md") :=
  ⟨by decide, by decide, by decide, by decide, by decide,
   claim_C2.2 captureNone filesC2 sampleDT StoreState.empty IndexState.empty
     "doc.md" "---\ntitle: Hello World\n---\nbody text"
     (by decide) (by decide) (by decide) (by decide) (by decide)⟩

/-- C4: ingesting a new URL whose snapshot yields no text (or only
whitespace) raises the empty-content `ValueError` and leaves the store and
the index exactly as they were — nothing saved, nothing appended, nothing
indexed. -/
theorem claim_C4 (capture : String → Option String × Option String)
    (files : String → Option String) (now : PyDateTime)
    (store : StoreState) (ix : IndexState) (source : String)
    (hurl : (pyStartsWith source "http://" || pyStartsWith source "https://") = true)
    (hex : resource_exists store (ResourceId.from_url source) = false)
    (hempty : pyStrip ((capture source).1.getD "") = "") :
    ingestExecute capture files now store ix source =
      (store, ix, .error "No content could be extracted from the source.") := by
  rw [ingestExecute]
  simp only [hurl, if_true]
  rw [if_neg (by simp [hex])]
  rcases hc : capture source with ⟨text, raw⟩
  rw [hc] at hempty
  simp only at hempty
  simp only [ingestFinish, hempty, if_true]

/-- C4 witness: a whitespace-only snapshot of a fresh URL errors with the
state untouched. -/
theorem claim_C4_witness :
    (pyStartsWith "https://e.com" "http://" ||
      pyStartsWith "https://e.com" "https://") = true ∧
    resource_exists StoreState.empty (ResourceId.from_url "https://e.com") = false ∧
    pyStrip (((fun _ => (some "   ", none) :
      String → Option String × Option String) "https://e.com").1.getD "") = "" ∧
    ingestExecute (fun _ => (some "   ", none)) (fun _ => none) sampleDT
      StoreState.empty IndexState.empty "https://e.com" =
      (StoreState.empty, IndexState.empty,
       .error "No content could be extracted from the source.") :=
  ⟨by decide, by decide, by decide,
   claim_C4 (fun _ => (some "   ", none)) (fun _ => none) sampleDT
     StoreState.empty IndexState.empty "https://e.com"
     (by decide) (by decide) (by decide)⟩

end RT
